import Mathlib

/-!
# Verification of the patience-js retry-orchestration library

A shallow embedding of `src/patience.js`: JS scalar values, the option
resolver (`options.parse` / `options.override`), the blocked-group registry
(`blockedGroups`), the strategy registry (`strategies`), and the retry
orchestrator (`_configure`, `_doRetry`, `_doReAttempt`, `run`, `runStrategy`).

The asynchronous executor (axios) is modelled as an oracle mapping the
global executor-call index to a success value or an error value; the
external bounded-retry primitive (Qretry) is modelled from the spec's
boundary description.  Promise settlement is modelled by an `Outcome`
value together with a trace of observable events (executor calls, pub/sub
broadcasts, progress notifications, registry mutations).
-/

namespace PatienceJS

/-- JS scalar values as used by the library: policy fields are numbers,
groups and messages are strings; `vundefined` stands for JavaScript
`undefined`.  Executor results and errors are treated opaquely by the
orchestrator, so scalars suffice for them as well. -/
inductive JSVal where
  | vundefined : JSVal
  | vnull : JSVal
  | vbool : Bool → JSVal
  | vnum : ℚ → JSVal
  | vstr : String → JSVal
deriving DecidableEq, Repr

/-- JavaScript truthiness of a scalar (NaN is not modelled; the library's
own values are never NaN on the claims' inputs). -/
def JSVal.truthy : JSVal → Bool
  | .vundefined => false
  | .vnull => false
  | .vbool b => b
  | .vnum q => q != 0
  | .vstr s => s != ""

/-- A JS object with scalar values: an association list in insertion
order, keys unique by construction of the operations below. -/
abbrev JSObj := List (String × JSVal)

/-- Property read `o[k]`: `undefined` when the key is absent
(first occurrence wins, matching unique-key JS objects). -/
def lookupObj : JSObj → String → JSVal
  | [], _ => .vundefined
  | (k₀, v₀) :: rest, k => if k₀ = k then v₀ else lookupObj rest k

/-- Property write `o[k] = v`: replaces the value in place if the key is
present, otherwise appends (JS insertion order). -/
def objSet : JSObj → String → JSVal → JSObj
  | [], k, v => [(k, v)]
  | (k₀, v₀) :: rest, k, v =>
      if k₀ = k then (k₀, v) :: rest else (k₀, v₀) :: objSet rest k v

/-- `Object.keys(o)`. -/
def objKeys (o : JSObj) : List String := o.map (fun p => p.1)

/-! ## `options` — the policy resolver and library defaults -/

/-- `options.defaults.retry` from the source. -/
def options.defaultsRetry : JSObj :=
  [("max", .vnum 2), ("interval", .vnum 100), ("intervalMultiplicator", .vnum 1)]

/-- `options.defaults.reAttempt` from the source. -/
def options.defaultsReAttempt : JSObj :=
  [("max", .vnum 3), ("interval", .vnum 1000), ("intervalMultiplicator", .vnum 1)]

/-- `options.override`: for every key of `defaultOptions`,
`resultConfig[key] = options[key] || defaultOptions[key]`. -/
def options.override (opts defaults : JSObj) : JSObj :=
  defaults.map (fun p =>
    (p.1, if (lookupObj opts p.1).truthy then lookupObj opts p.1 else p.2))

/-- `options.parse`: `none` models an absent (`undefined`/`null`)
argument; an object with no keys also yields the defaults verbatim. -/
def options.parse (opts : Option JSObj) (defaults : JSObj) : JSObj :=
  match opts with
  | none => defaults
  | some o => if (objKeys o).length = 0 then defaults else options.override o defaults

/-! ## `blockedGroups` — the process-wide blocked-group registry -/

/-- `blockedGroups.contains`: `list.indexOf(groupName) > -1`. -/
def blockedGroups.contains (l : List JSVal) (g : JSVal) : Bool :=
  l.any (fun x => x = g)

/-- `blockedGroups.add`: push only when not already present. -/
def blockedGroups.add (l : List JSVal) (g : JSVal) : List JSVal :=
  if blockedGroups.contains l g then l else l ++ [g]

/-- `blockedGroups.remove`: splice out the first occurrence, no-op when
absent. -/
def blockedGroups.remove : List JSVal → JSVal → List JSVal
  | [], _ => []
  | x :: xs, g => if x = g then xs else x :: blockedGroups.remove xs g

/-! ## `strategies` — the strategy registry -/

/-- A value inside a strategy bundle: either a scalar (e.g. a group name)
or a nested options object (a retry / re-attempt policy). -/
inductive BVal where
  | prim : JSVal → BVal
  | obj : JSObj → BVal
deriving DecidableEq, Repr

/-- JS truthiness of a bundle value: objects are always truthy. -/
def BVal.truthy : BVal → Bool
  | .prim v => v.truthy
  | .obj _ => true

/-- A strategy bundle (`{retry: {...}, reAttempt: {...}, group?: ...}`),
keys in insertion order. -/
abbrev Bundle := List (String × BVal)

/-- The strategy registry: `strategies.list`. -/
abbrev StratList := List (String × Bundle)

/-- Registry write `list[name] = bundle` (replace or append). -/
def setStrat : StratList → String → Bundle → StratList
  | [], k, v => [(k, v)]
  | (k₀, v₀) :: rest, k, v =>
      if k₀ = k then (k₀, v) :: rest else (k₀, v₀) :: setStrat rest k v

/-- The two built-in strategies shipped in `strategies.list`. -/
def strategies.builtinList : StratList :=
  [("resilient",
     [("retry", .obj [("max", .vnum 5), ("interval", .vnum 100),
                      ("intervalMultiplicator", .vnum 1)]),
      ("reAttempt", .obj [("max", .vnum 10), ("interval", .vnum 1000),
                          ("intervalMultiplicator", .vnum 1)])]),
   ("exponential-backoff",
     [("retry", .obj [("max", .vnum 2), ("interval", .vnum 100),
                      ("intervalMultiplicator", .vnum (3/2))]),
      ("reAttempt", .obj [("max", .vnum 3), ("interval", .vnum 1000),
                          ("intervalMultiplicator", .vnum (3/2))])])]

/-- `strategies.get`: `false` (here `none`) if the name is unregistered,
the stored bundle otherwise (first occurrence wins, keys unique). -/
def strategies.get : StratList → String → Option Bundle
  | [], _ => none
  | (k₀, v₀) :: rest, name =>
      if k₀ = name then some v₀ else strategies.get rest name

/-- `strategies.add`: when `get` yields a (truthy) bundle, return `false`
without mutating; otherwise store the bundle.  The source has no `return`
statement on the storing path, so the call evaluates to `undefined`. -/
def strategies.add (l : StratList) (name : String) (opts : Bundle) :
    StratList × JSVal :=
  match strategies.get l name with
  | some _ => (l, .vbool false)
  | none => (setStrat l name opts, .vundefined)

/-! ## Library message constants -/

/-- `messages.retryFailed`. -/
def messages.retryFailed : String := "Request failed."

/-- `messages.reAttemptsFailed`. -/
def messages.reAttemptsFailed : String := "Re-attempts of request failed."

/-- `messages.requestsBlocked`. -/
def messages.requestsBlocked : String :=
  "Requests are currently blocked by Retry library."

/-! ## Orchestrator configuration (`this._options`) and fluent setters -/

/-- The mutable `_options` accumulator: each field is absent
(JS `undefined`) until its fluent setter runs. -/
structure MOptions where
  retry : Option JSObj
  reAttempt : Option JSObj
  request : Option JSObj
  group : Option JSVal
deriving DecidableEq, Repr

namespace Patience

/-- The fresh configuration produced by `Patience()`: `_options = {}`. -/
def init : MOptions := ⟨none, none, none, none⟩

/-- Fluent setter `retry(params)`. -/
def retry (cfg : MOptions) (params : Option JSObj) : MOptions :=
  { cfg with retry := some (options.parse params options.defaultsRetry) }

/-- Fluent setter `reAttempt(params)`. -/
def reAttempt (cfg : MOptions) (params : Option JSObj) : MOptions :=
  { cfg with reAttempt := some (options.parse params options.defaultsReAttempt) }

/-- Fluent setter `request(params)`. -/
def request (cfg : MOptions) (params : JSObj) : MOptions :=
  { cfg with request := some params }

/-- Fluent setter `group(name)`. -/
def group (cfg : MOptions) (name : JSVal) : MOptions :=
  { cfg with group := some name }

end Patience

/-- A synchronously thrown JS error (the only one the embedding needs is
the `TypeError` from dereferencing `undefined`). -/
inductive JsErr where
  | typeError : JsErr
deriving DecidableEq, Repr

/-- JS `v - 1` on a policy's `max` field: numeric values decrement;
a non-numeric `max` would give NaN, modelled as `vundefined` (both are falsy
non-numbers and neither occurs on the claims' inputs). -/
def jsSub1 : JSVal → JSVal
  | .vnum q => .vnum (q - 1)
  | _ => .vundefined

/-- `_configure()`: fill in the default retry policy, derive the group
from `request.url` when unset (throwing when `request` is also unset),
and translate `max` into Qretry's `maxRetry` for both tiers
(`maxRetry = max` for retry, `maxRetry = max - 1` for re-attempt). -/
def Patience.configureOptions (cfg : MOptions) : Except JsErr MOptions :=
  let cfg := if cfg.retry.isNone then Patience.retry cfg none else cfg
  match (match cfg.group with
         | some _ => Except.ok cfg
         | none =>
             match cfg.request with
             | none => Except.error JsErr.typeError
             | some req => Except.ok (Patience.group cfg (lookupObj req "url"))) with
  | .error e => .error e
  | .ok cfg =>
    let r := cfg.retry.getD []
    let cfg := { cfg with retry := some (objSet r "maxRetry" (lookupObj r "max")) }
    match cfg.reAttempt with
    | none => .ok cfg
    | some ra =>
        .ok { cfg with
              reAttempt := some (objSet ra "maxRetry" (jsSub1 (lookupObj ra "max"))) }

/-! ## The executor oracle and the bounded-retry primitive -/

/-- The result of one executor (axios) call: a resolved response value or
a rejected error value, both treated opaquely by the orchestrator. -/
abbrev ExecRes := Except JSVal JSVal

/-- Which tier of the state machine issued an executor call. -/
inductive Tier where
  | retryTier : Tier
  | reAttemptTier : Tier
deriving DecidableEq, Repr

/-- An observable event of one `run()`: an executor call (with its global
call index), a `PubSub.publish`, a deferred-progress `notify`, or a
blocked-group registry mutation. -/
inductive Ev where
  | execCall : Tier → Nat → Ev
  | publish : String → String → Ev
  | notify : JSObj → Ev
  | blockAdd : JSVal → Ev
  | blockRemove : JSVal → Ev
deriving DecidableEq, Repr

/-- Modelled from the spec: the external bounded-retry primitive (Qretry)
"retries the action up to `maxRetry` additional times beyond the first
try, ... resolving on first success or rejecting after exhaustion with
the last error".  `fuel` is the number of additional retries still
allowed; `start` is the global index of the next executor call; the
returned trace records every call made, in order. -/
def qretryGo (exec : Nat → ExecRes) (t : Tier) (start : Nat) :
    Nat → ExecRes × List Ev
  | 0 => (exec start, [.execCall t start])
  | fuel + 1 =>
    match exec start with
    | .ok v => (.ok v, [.execCall t start])
    | .error _ =>
        let r := qretryGo exec t (start + 1) fuel
        (r.1, .execCall t start :: r.2)

/-- The retry count a policy's (integer-valued) `maxRetry` field denotes;
a negative or non-numeric value allows no additional retries. -/
def retriesOf : JSVal → Nat
  | .vnum q => (⌊q⌋).toNat
  | _ => 0

/-- `Qretry(fn, pol)` on the executor oracle, reading `pol.maxRetry`. -/
def Qretry (exec : Nat → ExecRes) (t : Tier) (start : Nat) (pol : JSObj) :
    ExecRes × List Ev :=
  qretryGo exec t start (retriesOf (lookupObj pol "maxRetry"))

/-- How the deferred of one `run()` finally settles: `resolve(v)` or
`reject(payload)` (the payload an object literal, its key names kept). -/
inductive Outcome where
  | resolved : JSVal → Outcome
  | rejected : JSObj → Outcome
deriving DecidableEq, Repr

/-- The observable result of one `run()`: the event trace followed by the
final settlement of the returned promise. -/
structure RunOut where
  trace : List Ev
  outcome : Outcome
deriving DecidableEq, Repr

namespace Patience

/-- `_doReAttempt(response)`: run Qretry under the re-attempt policy
(executor calls continue at global index `start`); on success remove the
group and resolve, on exhaustion remove the group, publish
`reAttemptsFailed` and reject with `{message, err}` (the source spells
the error key `err` here, unlike the retry-phase payloads). -/
def doReAttempt (exec : Nat → ExecRes) (start : Nat) (cfg : MOptions) :
    List Ev × Outcome :=
  let g := cfg.group.getD .vundefined
  match Qretry exec .reAttemptTier start (cfg.reAttempt.getD []) with
  | (.ok v, tr) => (tr ++ [.blockRemove g], .resolved v)
  | (.error e, tr) =>
      (tr ++ [.blockRemove g, .publish "reAttemptsFailed" messages.reAttemptsFailed],
       .rejected [("message", .vstr messages.reAttemptsFailed), ("err", e)])

/-- `_doRetry(response)`: run Qretry under the retry policy; on success
resolve; on exhaustion publish `retriesFailed`, then either notify,
block the group and escalate into `_doReAttempt`, or reject with
`{message, error}` when no re-attempt policy is configured. -/
def doRetry (exec : Nat → ExecRes) (cfg : MOptions) : List Ev × Outcome :=
  let g := cfg.group.getD .vundefined
  match Qretry exec .retryTier 0 (cfg.retry.getD []) with
  | (.ok v, tr) => (tr, .resolved v)
  | (.error e, tr) =>
      match cfg.reAttempt with
      | some _ =>
          let ra := doReAttempt exec tr.length cfg
          (tr ++ [.publish "retriesFailed" messages.retryFailed,
                  .notify [("message", .vstr messages.retryFailed), ("error", e)],
                  .blockAdd g]
              ++ ra.1,
           ra.2)
      | none =>
          (tr ++ [.publish "retriesFailed" messages.retryFailed],
           .rejected [("message", .vstr messages.retryFailed), ("error", e)])

/-- `run()`: configure (which may throw synchronously), then either
reject at once when the group is blocked — without any executor call —
or enter the retry phase.  `blocked` is the blocked-group registry's
state when `run()` starts. -/
def run (blocked : List JSVal) (exec : Nat → ExecRes) (cfg : MOptions) :
    Except JsErr RunOut :=
  match Patience.configureOptions cfg with
  | .error e => .error e
  | .ok cfg =>
      if blockedGroups.contains blocked (cfg.group.getD .vundefined) then
        .ok ⟨[], .rejected [("message", .vstr messages.requestsBlocked)]⟩
      else
        let r := doRetry exec cfg
        .ok ⟨r.1, r.2⟩

/-- `_strategyHelper(optionName, options)`: skip the setter entirely when
the bundle value is falsy.  `none` marks the unmodelled shapes (a key
that is no setter, an object-valued `group`, a scalar `request`), where
the source would throw or store a value outside this embedding's types;
no claim's input reaches them. -/
def strategyHelper (cfg : MOptions) (key : String) (v : BVal) :
    Option MOptions :=
  if v.truthy then
    if key = "retry" then
      some (Patience.retry cfg (match v with | .obj o => some o | .prim _ => none))
    else if key = "reAttempt" then
      some (Patience.reAttempt cfg (match v with | .obj o => some o | .prim _ => none))
    else if key = "request" then
      match v with
      | .obj o => some (Patience.request cfg o)
      | .prim _ => none
    else if key = "group" then
      match v with
      | .prim p => some (Patience.group cfg p)
      | .obj _ => none
    else none
  else some cfg

/-- `Object.keys(strategy).map(key => _strategyHelper(key, strategy[key]))`:
apply the bundle's keys in insertion order. -/
def applyBundle (cfg : MOptions) : Bundle → Option MOptions
  | [] => some cfg
  | (k, v) :: rest =>
      match strategyHelper cfg k v with
      | none => none
      | some cfg => applyBundle cfg rest

/-- `runStrategy(name)` either logs and returns `false` synchronously, or
replays the bundle through the setters and delegates to `run()`. -/
inductive StratRes where
  | falseSync : String → StratRes
  | ran : Except JsErr RunOut → StratRes
deriving Repr

/-- `runStrategy(strategyName)` over a registry state `reg`; the outer
`Option` is `none` only on the unmodelled bundle shapes of
`strategyHelper`. -/
def runStrategy (blocked : List JSVal) (exec : Nat → ExecRes)
    (reg : StratList) (cfg : MOptions) (name : String) : Option StratRes :=
  match strategies.get reg name with
  | none => some (.falseSync ("Retry strategy " ++ name ++ " not found."))
  | some strat =>
      (applyBundle cfg strat).map (fun cfg => .ran (run blocked exec cfg))

end Patience

/-! ## Trace observations -/

/-- Whether an event is an executor call of tier `t`. -/
def isExecCallOf (t : Tier) : Ev → Bool
  | .execCall t' _ => t' == t
  | _ => false

/-- The number of executor calls of tier `t` in a trace. -/
def callsOf (t : Tier) (tr : List Ev) : Nat :=
  (tr.filter (isExecCallOf t)).length

/-- The total number of executor calls in a trace. -/
def totalCalls (tr : List Ev) : Nat :=
  callsOf .retryTier tr + callsOf .reAttemptTier tr

/-- One event's effect on the blocked-group registry. -/
def stepRegistry (l : List JSVal) : Ev → List JSVal
  | .blockAdd g => blockedGroups.add l g
  | .blockRemove g => blockedGroups.remove l g
  | _ => l

/-- The blocked-group registry after a trace, starting from `init`. -/
def registryAfter (init : List JSVal) (tr : List Ev) : List JSVal :=
  tr.foldl stepRegistry init

/-- Every re-attempt-tier executor call in the trace happens while `g`
is in the (evolving) blocked-group registry: "the group stays blocked
for the duration of the re-attempt phase". -/
def safeTrace (l : List JSVal) (g : JSVal) : List Ev → Prop
  | [] => True
  | e :: tr => (isExecCallOf .reAttemptTier e = true → g ∈ l) ∧
      safeTrace (stepRegistry l e) g tr

/-- Whether an executor result is a rejection. -/
def isErr : ExecRes → Bool
  | .error _ => true
  | .ok _ => false

/-- The number of executor tries the tier-1 (retry) phase of a configured
run performs: Qretry's `maxRetry` retries plus the first try. -/
def tier1Tries (cfg : MOptions) : Nat :=
  retriesOf (lookupObj (cfg.retry.getD []) "maxRetry") + 1

/-- The number of executor tries the re-attempt phase of a configured run
performs when every try fails. -/
def reAttemptTries (cfg : MOptions) : Nat :=
  retriesOf (lookupObj (cfg.reAttempt.getD []) "maxRetry") + 1

/-- Whether an event leaves the blocked-group registry unchanged. -/
def regNeutral : Ev → Bool
  | .blockAdd _ => false
  | .blockRemove _ => false
  | _ => true

/-! ## Basic lemmas: objects, registry, traces -/

theorem lookupObj_objSet_self (o : JSObj) (k : String) (v : JSVal) :
    lookupObj (objSet o k v) k = v := by
  induction o with
  | nil => simp [objSet, lookupObj]
  | cons p rest ih =>
      obtain ⟨k₀, v₀⟩ := p
      by_cases h : k₀ = k
      · simp [objSet, lookupObj, h]
      · simp [objSet, lookupObj, h, ih]

theorem lookupObj_objSet_ne (o : JSObj) (k k' : String) (v : JSVal)
    (h : k ≠ k') : lookupObj (objSet o k v) k' = lookupObj o k' := by
  induction o with
  | nil => simp [objSet, lookupObj, h]
  | cons p rest ih =>
      obtain ⟨k₀, v₀⟩ := p
      by_cases h₀ : k₀ = k
      · subst h₀
        simp [objSet, lookupObj, h]
      · simp [objSet, lookupObj, h₀, ih]

theorem retriesOf_natCast (m : ℕ) : retriesOf (.vnum (m : ℚ)) = m := by
  simp [retriesOf]

theorem retriesOf_natCast_sub_one (k : ℕ) (hk : 1 ≤ k) :
    retriesOf (.vnum ((k : ℚ) - 1)) = k - 1 := by
  have h : ((k : ℚ) - 1) = ((k - 1 : ℕ) : ℚ) := by
    push_cast [Nat.cast_sub hk]
    ring
  rw [h, retriesOf_natCast]

theorem blockedGroups.contains_eq_false_iff (l : List JSVal) (g : JSVal) :
    blockedGroups.contains l g = false ↔ g ∉ l := by
  simp [blockedGroups.contains, List.any_eq_true]
  constructor
  · intro h hg
    exact h g hg rfl
  · intro h x hx hxg
    exact h (hxg ▸ hx)

theorem blockedGroups.mem_add (l : List JSVal) (g : JSVal) :
    g ∈ blockedGroups.add l g := by
  unfold blockedGroups.add
  by_cases h : blockedGroups.contains l g
  · simp only [h, if_true]
    by_contra hg
    rw [← blockedGroups.contains_eq_false_iff l g] at hg
    simp [h] at hg
  · simp [h]

theorem blockedGroups.add_of_not_mem (l : List JSVal) (g : JSVal)
    (h : g ∉ l) : blockedGroups.add l g = l ++ [g] := by
  have hc : blockedGroups.contains l g = false :=
    (blockedGroups.contains_eq_false_iff l g).mpr h
  simp [blockedGroups.add, hc]

theorem blockedGroups.remove_append_self (l : List JSVal) (g : JSVal)
    (h : g ∉ l) : blockedGroups.remove (l ++ [g]) g = l := by
  induction l with
  | nil => simp [blockedGroups.remove]
  | cons x xs ih =>
      have hx : x ≠ g := fun hxg => h (hxg ▸ List.mem_cons_self x xs)
      have hxs : g ∉ xs := fun hg => h (List.mem_cons_of_mem x hg)
      simp [blockedGroups.remove, hx, ih hxs]

theorem blockedGroups.not_mem_remove_add (l : List JSVal) (g : JSVal)
    (h : g ∉ l) :
    g ∉ blockedGroups.remove (blockedGroups.add l g) g := by
  rw [blockedGroups.add_of_not_mem l g h, blockedGroups.remove_append_self l g h]
  exact h

theorem registryAfter_append (l : List JSVal) (a b : List Ev) :
    registryAfter l (a ++ b) = registryAfter (registryAfter l a) b := by
  simp [registryAfter, List.foldl_append]

theorem stepRegistry_of_neutral (l : List JSVal) (e : Ev)
    (h : regNeutral e = true) : stepRegistry l e = l := by
  cases e <;> simp_all [regNeutral, stepRegistry]

theorem registryAfter_of_neutral (l : List JSVal) (tr : List Ev)
    (h : ∀ e ∈ tr, regNeutral e = true) : registryAfter l tr = l := by
  induction tr generalizing l with
  | nil => rfl
  | cons e rest ih =>
      have he : regNeutral e = true := h e (List.mem_cons_self e rest)
      have hrest : ∀ e ∈ rest, regNeutral e = true :=
        fun e hm => h e (List.mem_cons_of_mem _ hm)
      show registryAfter (stepRegistry l e) rest = l
      rw [stepRegistry_of_neutral l e he, ih l hrest]

theorem regNeutral_of_execCall (e : Ev) (t : Tier)
    (h : isExecCallOf t e = true) : regNeutral e = true := by
  cases e <;> simp_all [isExecCallOf, regNeutral]

theorem callsOf_append (t : Tier) (a b : List Ev) :
    callsOf t (a ++ b) = callsOf t a + callsOf t b := by
  simp [callsOf, List.filter_append]

theorem callsOf_of_all (t : Tier) (tr : List Ev)
    (h : ∀ e ∈ tr, isExecCallOf t e = true) : callsOf t tr = tr.length := by
  unfold callsOf
  rw [List.filter_eq_self.mpr h]

theorem callsOf_of_none (t : Tier) (tr : List Ev)
    (h : ∀ e ∈ tr, isExecCallOf t e = false) : callsOf t tr = 0 := by
  unfold callsOf
  rw [List.filter_eq_nil_iff.mpr fun e hm => by simp [h e hm]]
  rfl

theorem safeTrace_append (l : List JSVal) (g : JSVal) (a b : List Ev) :
    safeTrace l g (a ++ b) ↔
      safeTrace l g a ∧ safeTrace (registryAfter l a) g b := by
  induction a generalizing l with
  | nil => simp [safeTrace, registryAfter]
  | cons e rest ih =>
      have h1 : safeTrace l g ((e :: rest) ++ b) ↔
          (isExecCallOf .reAttemptTier e = true → g ∈ l) ∧
            safeTrace (stepRegistry l e) g (rest ++ b) := Iff.rfl
      have h2 : safeTrace l g (e :: rest) ↔
          (isExecCallOf .reAttemptTier e = true → g ∈ l) ∧
            safeTrace (stepRegistry l e) g rest := Iff.rfl
      have h3 : registryAfter l (e :: rest) =
          registryAfter (stepRegistry l e) rest := rfl
      rw [h1, h2, h3, ih (stepRegistry l e), and_assoc]

theorem safeTrace_of_no_reattempt (l : List JSVal) (g : JSVal) (tr : List Ev)
    (h : ∀ e ∈ tr, isExecCallOf .reAttemptTier e = false) :
    safeTrace l g tr := by
  induction tr generalizing l with
  | nil => trivial
  | cons e rest ih =>
      refine ⟨fun hc => ?_, ih (stepRegistry l e)
        (fun e hm => h e (List.mem_cons_of_mem _ hm))⟩
      have := h e (List.mem_cons_self e rest)
      simp [this] at hc

theorem safeTrace_of_mem (l : List JSVal) (g : JSVal) (tr : List Ev)
    (hg : g ∈ l) (h : ∀ e ∈ tr, regNeutral e = true) :
    safeTrace l g tr := by
  induction tr generalizing l with
  | nil => trivial
  | cons e rest ih =>
      refine ⟨fun _ => hg, ?_⟩
      rw [stepRegistry_of_neutral l e (h e (List.mem_cons_self e rest))]
      exact ih l hg (fun e hm => h e (List.mem_cons_of_mem _ hm))

/-! ## Lemmas about the bounded-retry primitive -/

theorem qretryGo_events (exec : Nat → ExecRes) (t : Tier) (s n : Nat) :
    ∀ e ∈ (qretryGo exec t s n).2, isExecCallOf t e = true := by
  induction n generalizing s with
  | zero =>
      intro e he
      simp [qretryGo] at he
      simp [he, isExecCallOf]
  | succ n ih =>
      intro e he
      unfold qretryGo at he
      cases hx : exec s with
      | ok v =>
          simp [hx] at he
          simp [he, isExecCallOf]
      | error err =>
          simp [hx] at he
          rcases he with he | he
          · simp [he, isExecCallOf]
          · exact ih (s + 1) e he

theorem qretryGo_len_le (exec : Nat → ExecRes) (t : Tier) (s n : Nat) :
    (qretryGo exec t s n).2.length ≤ n + 1 := by
  induction n generalizing s with
  | zero => simp [qretryGo]
  | succ n ih =>
      unfold qretryGo
      cases hx : exec s with
      | ok v => simp
      | error err =>
          simp only [List.length_cons]
          exact Nat.succ_le_succ (ih (s + 1))

theorem qretryGo_fail (exec : Nat → ExecRes) (t : Tier) (s n : Nat)
    (h : ∀ i, i < n + 1 → isErr (exec (s + i)) = true) :
    (qretryGo exec t s n).1 = exec (s + n) ∧
      (qretryGo exec t s n).2.length = n + 1 := by
  induction n generalizing s with
  | zero => simp [qretryGo]
  | succ n ih =>
      have h0 : isErr (exec s) = true := by
        have := h 0 (Nat.succ_pos _)
        simpa using this
      cases hx : exec s with
      | ok v => simp [isErr, hx] at h0
      | error err =>
          have hrec := ih (s + 1) (fun i hi => by
            have := h (i + 1) (Nat.succ_lt_succ hi)
            have harith : s + (i + 1) = s + 1 + i := by omega
            rwa [harith] at this)
          unfold qretryGo
          simp only [hx]
          refine ⟨?_, ?_⟩
          · have harith : s + 1 + n = s + (n + 1) := by omega
            rw [hrec.1, harith]
          · simp [hrec.2]

theorem qretryGo_success (exec : Nat → ExecRes) (t : Tier) (v : JSVal)
    (s n j : Nat) (hj : j ≤ n)
    (hfail : ∀ i, i < j → isErr (exec (s + i)) = true)
    (hok : exec (s + j) = .ok v) :
    (qretryGo exec t s n).1 = .ok v ∧
      (qretryGo exec t s n).2.length = j + 1 := by
  induction n generalizing s j with
  | zero =>
      have hj0 : j = 0 := Nat.le_zero.mp hj
      subst hj0
      simp at hok
      simp [qretryGo, hok]
  | succ n ih =>
      cases j with
      | zero =>
          simp at hok
          unfold qretryGo
          simp [hok]
      | succ j =>
          have h0 : isErr (exec s) = true := by
            have := hfail 0 (Nat.succ_pos _)
            simpa using this
          cases hx : exec s with
          | ok w => simp [isErr, hx] at h0
          | error err =>
              have hrec := ih (s + 1) j (Nat.le_of_succ_le_succ hj)
                (fun i hi => by
                  have := hfail (i + 1) (Nat.succ_lt_succ hi)
                  have harith : s + (i + 1) = s + 1 + i := by omega
                  rwa [harith] at this)
                (by
                  have harith : s + 1 + j = s + (j + 1) := by omega
                  rwa [harith])
              unfold qretryGo
              simp only [hx]
              exact ⟨hrec.1, by simp [hrec.2]⟩

theorem lookupObj_override (o d : JSObj) (key : String)
    (hkey : key ∈ objKeys d) :
    lookupObj (options.override o d) key =
      if (lookupObj o key).truthy then lookupObj o key
      else lookupObj d key := by
  induction d with
  | nil => simp [objKeys] at hkey
  | cons p rest ih =>
      obtain ⟨k₀, v₀⟩ := p
      by_cases h : k₀ = key
      · subst h
        simp [options.override, lookupObj]
      · have hkey' : key ∈ objKeys rest := by
          simp [objKeys] at hkey
          rcases hkey with hkey | hkey
          · exact absurd hkey.symm h
          · simpa [objKeys]
        have := ih hkey'
        simpa [options.override, lookupObj, h] using this

theorem get_setStrat_self (l : StratList) (name : String) (b : Bundle) :
    strategies.get (setStrat l name b) name = some b := by
  induction l with
  | nil => simp [setStrat, strategies.get]
  | cons p rest ih =>
      obtain ⟨k₀, v₀⟩ := p
      by_cases h : k₀ = name
      · simp [setStrat, strategies.get, h]
      · simp [setStrat, strategies.get, h, ih]

theorem isExecCallOf_retry_not_reattempt (e : Ev)
    (h : isExecCallOf .retryTier e = true) :
    isExecCallOf .reAttemptTier e = false := by
  cases e with
  | execCall t i => cases t <;> simp_all [isExecCallOf]
  | _ => simp [isExecCallOf]

/-- Helper: the registry state after an escalation-shaped trace: the
tier-1 segment, the broadcasts and the re-attempt calls are neutral, the
`blockAdd`/`blockRemove` pair cancels, so the registry ends where it
started whenever the group was not blocked initially. -/
theorem registryAfter_escalation (blocked : List JSVal) (g : JSVal)
    (tr₁ tr₂ rest : List Ev) (np : JSObj)
    (hnotin : g ∉ blocked)
    (h1 : ∀ e ∈ tr₁, regNeutral e = true)
    (h2 : ∀ e ∈ tr₂, regNeutral e = true)
    (h3 : ∀ e ∈ rest, regNeutral e = true) :
    registryAfter blocked
      (tr₁ ++ [.publish "retriesFailed" messages.retryFailed, .notify np,
               .blockAdd g]
        ++ (tr₂ ++ .blockRemove g :: rest)) = blocked := by
  have e1 : registryAfter blocked
      (tr₁ ++ [Ev.publish "retriesFailed" messages.retryFailed,
               Ev.notify np, Ev.blockAdd g]) =
      blockedGroups.add blocked g := by
    rw [registryAfter_append, registryAfter_of_neutral _ _ h1]
    rfl
  rw [registryAfter_append, e1, registryAfter_append,
      registryAfter_of_neutral _ _ h2]
  have e2 : registryAfter (blockedGroups.add blocked g)
      (Ev.blockRemove g :: rest) =
      registryAfter (blockedGroups.remove (blockedGroups.add blocked g) g)
        rest := rfl
  rw [e2, registryAfter_of_neutral _ _ h3,
      blockedGroups.add_of_not_mem blocked g hnotin,
      blockedGroups.remove_append_self blocked g hnotin]

/-- Helper: an escalation-shaped trace keeps the group blocked
throughout the re-attempt phase — every re-attempt-tier executor call
happens strictly between the `blockAdd` and the `blockRemove`. -/
theorem safeTrace_escalation (blocked : List JSVal) (g : JSVal)
    (tr₁ tr₂ rest : List Ev) (np : JSObj)
    (h1 : ∀ e ∈ tr₁, isExecCallOf .reAttemptTier e = false)
    (h2 : ∀ e ∈ tr₂, regNeutral e = true)
    (h3 : ∀ e ∈ rest, isExecCallOf .reAttemptTier e = false) :
    safeTrace blocked g
      (tr₁ ++ [.publish "retriesFailed" messages.retryFailed, .notify np,
               .blockAdd g]
        ++ (tr₂ ++ .blockRemove g :: rest)) := by
  rw [safeTrace_append]
  constructor
  · refine safeTrace_of_no_reattempt _ _ _ (fun e he => ?_)
    rcases List.mem_append.mp he with he | he
    · exact h1 e he
    · simp only [List.mem_cons, List.not_mem_nil, or_false] at he
      rcases he with rfl | rfl | rfl <;> rfl
  · have hmid : registryAfter blocked
        (tr₁ ++ [Ev.publish "retriesFailed" messages.retryFailed,
                 Ev.notify np, Ev.blockAdd g]) =
        blockedGroups.add (registryAfter blocked tr₁) g := by
      rw [registryAfter_append]
      rfl
    rw [hmid, safeTrace_append]
    refine ⟨safeTrace_of_mem _ _ _ (blockedGroups.mem_add _ _) h2, ?_⟩
    rw [registryAfter_of_neutral _ _ h2]
    refine ⟨fun hc => by simp [isExecCallOf] at hc, ?_⟩
    exact safeTrace_of_no_reattempt _ _ _ h3

/-- Helper: the complete shape of a `run()` whose tier-1 phase exhausts
while a re-attempt policy with `max = k` is configured: the trace is the
tier-1 calls, the `retriesFailed` broadcast, the progress notification,
the registry block, the re-attempt calls, the registry unblock and
(on exhaustion) the `reAttemptsFailed` broadcast; afterwards the group
is no longer in the registry. -/
theorem run_escalation_shape (blocked : List JSVal) (exec : Nat → ExecRes)
    (cfg : MOptions) (g : JSVal) (r ra : JSObj) (m k : ℕ)
    (hr : cfg.retry = some r)
    (hmax : lookupObj r "max" = .vnum m)
    (hra : cfg.reAttempt = some ra)
    (hk : lookupObj ra "max" = .vnum k)
    (hk1 : 1 ≤ k)
    (hg : cfg.group = some g)
    (hnb : blockedGroups.contains blocked g = false)
    (hfail1 : ∀ i, i < m + 1 → isErr (exec i) = true) :
    ∃ e₁ rest outc,
      Patience.run blocked exec cfg = .ok
        ⟨(qretryGo exec .retryTier 0 m).2
          ++ [.publish "retriesFailed" messages.retryFailed,
              .notify [("message", .vstr messages.retryFailed), ("error", e₁)],
              .blockAdd g]
          ++ ((qretryGo exec .reAttemptTier (m + 1) (k - 1)).2
              ++ .blockRemove g :: rest),
         outc⟩ ∧
      exec m = .error e₁ ∧
      ((∃ v, (qretryGo exec .reAttemptTier (m + 1) (k - 1)).1 = .ok v ∧
          rest = [] ∧ outc = .resolved v) ∨
       (∃ e₂, (qretryGo exec .reAttemptTier (m + 1) (k - 1)).1 = .error e₂ ∧
          rest = [.publish "reAttemptsFailed" messages.reAttemptsFailed] ∧
          outc = .rejected
            [("message", .vstr messages.reAttemptsFailed), ("err", e₂)])) := by
  have hconf : Patience.configureOptions cfg = .ok
      { cfg with retry := some (objSet r "maxRetry" (.vnum (m : ℚ))),
                 reAttempt := some (objSet ra "maxRetry" (.vnum ((k : ℚ) - 1))) } := by
    simp [Patience.configureOptions, hr, hg, hra, hmax, hk, jsSub1]
  set cfgC : MOptions :=
    { cfg with retry := some (objSet r "maxRetry" (.vnum (m : ℚ))),
               reAttempt := some (objSet ra "maxRetry" (.vnum ((k : ℚ) - 1))) }
    with hcfgC
  have hfuel1 : retriesOf (lookupObj (cfgC.retry.getD []) "maxRetry") = m := by
    simp [hcfgC, lookupObj_objSet_self, retriesOf_natCast]
  have hfuel2 : retriesOf (lookupObj (cfgC.reAttempt.getD []) "maxRetry") = k - 1 := by
    simp only [hcfgC, Option.getD_some, lookupObj_objSet_self]
    exact retriesOf_natCast_sub_one k hk1
  have hq1 := qretryGo_fail exec .retryTier 0 m (fun i hi => by
    simpa using hfail1 i hi)
  obtain ⟨e₁, he₁⟩ : ∃ e, exec m = .error e := by
    cases hx : exec m with
    | ok v =>
        have := hfail1 m (Nat.lt_succ_self m)
        simp [isErr, hx] at this
    | error e => exact ⟨e, rfl⟩
  have hq11 : (qretryGo exec .retryTier 0 m).1 = .error e₁ := by
    rw [hq1.1]
    simpa using he₁
  have hlen1 : (qretryGo exec .retryTier 0 m).2.length = m + 1 := hq1.2
  have hre : ∃ rest outc,
      Patience.doReAttempt exec (m + 1) cfgC =
        ((qretryGo exec .reAttemptTier (m + 1) (k - 1)).2
          ++ .blockRemove g :: rest, outc) ∧
      ((∃ v, (qretryGo exec .reAttemptTier (m + 1) (k - 1)).1 = .ok v ∧
          rest = [] ∧ outc = .resolved v) ∨
       (∃ e₂, (qretryGo exec .reAttemptTier (m + 1) (k - 1)).1 = .error e₂ ∧
          rest = [.publish "reAttemptsFailed" messages.reAttemptsFailed] ∧
          outc = .rejected
            [("message", .vstr messages.reAttemptsFailed), ("err", e₂)])) := by
    unfold Patience.doReAttempt
    simp only [Qretry, hfuel2]
    rw [show qretryGo exec .reAttemptTier (m + 1) (k - 1) =
        ((qretryGo exec .reAttemptTier (m + 1) (k - 1)).1,
         (qretryGo exec .reAttemptTier (m + 1) (k - 1)).2) from rfl]
    cases hq2 : (qretryGo exec .reAttemptTier (m + 1) (k - 1)).1 with
    | ok v =>
        refine ⟨[], .resolved v, ?_, Or.inl ⟨v, rfl, rfl, rfl⟩⟩
        simp [hcfgC, hg]
    | error e₂ =>
        refine ⟨[.publish "reAttemptsFailed" messages.reAttemptsFailed],
          .rejected [("message", .vstr messages.reAttemptsFailed), ("err", e₂)],
          ?_, Or.inr ⟨e₂, rfl, rfl, rfl⟩⟩
        simp [hcfgC, hg]
  obtain ⟨rest, outc, hreEq, hreCase⟩ := hre
  refine ⟨e₁, rest, outc, ?_, he₁, hreCase⟩
  rw [Patience.run, hconf]
  unfold Patience.doRetry
  simp only [Qretry, hfuel1]
  rw [show qretryGo exec .retryTier 0 m =
      ((qretryGo exec .retryTier 0 m).1, (qretryGo exec .retryTier 0 m).2)
    from rfl, hq11]
  simp only [hlen1, hreEq, hcfgC]
  simp [hg, hnb]

/-! ## Claim theorems -/

/-- C3 (amended): when the executor fails on every try, the retry policy
has `max = m` and no re-attempt policy is configured, `run()` rejects
with `{message: "Request failed.", error}` after exactly `m + 1`
executor calls (the tier-1 `max` is handed to the bounded-retry
primitive as its count of retries beyond the first try), and the
blocked-group registry is never touched. -/
theorem run_retry_exhaustion (blocked : List JSVal) (exec : Nat → ExecRes)
    (cfg : MOptions) (g : JSVal) (r : JSObj) (m : ℕ)
    (hr : cfg.retry = some r)
    (hmax : lookupObj r "max" = .vnum m)
    (hra : cfg.reAttempt = none)
    (hg : cfg.group = some g)
    (hnb : blockedGroups.contains blocked g = false)
    (hfail : ∀ i, i < m + 1 → isErr (exec i) = true) :
    ∃ out e, Patience.run blocked exec cfg = .ok out ∧
      exec m = .error e ∧
      out.outcome = .rejected
        [("message", .vstr messages.retryFailed), ("error", e)] ∧
      totalCalls out.trace = m + 1 ∧
      registryAfter blocked out.trace = blocked ∧
      (∀ g', Ev.blockAdd g' ∉ out.trace) := by
  have hconf : Patience.configureOptions cfg =
      .ok { cfg with retry := some (objSet r "maxRetry" (.vnum m)) } := by
    simp [Patience.configureOptions, hr, hg, hra, hmax]
  set cfgC : MOptions := { cfg with retry := some (objSet r "maxRetry" (.vnum m)) }
    with hcfgC
  have hfuel : retriesOf (lookupObj (cfgC.retry.getD []) "maxRetry") = m := by
    simp [hcfgC, lookupObj_objSet_self, retriesOf_natCast]
  have hq := qretryGo_fail exec .retryTier 0 m (fun i hi => by
    simpa using hfail i hi)
  obtain ⟨e, he⟩ : ∃ e, exec m = .error e := by
    cases hx : exec m with
    | ok v =>
        have := hfail m (Nat.lt_succ_self m)
        simp [isErr, hx] at this
    | error e => exact ⟨e, rfl⟩
  set tr := (qretryGo exec .retryTier 0 m).2 with htr
  have hq1 : (qretryGo exec .retryTier 0 m).1 = .error e := by
    rw [hq.1]
    simpa using he
  have hlen : tr.length = m + 1 := hq.2
  have hev : ∀ ev ∈ tr, isExecCallOf .retryTier ev = true :=
    qretryGo_events exec .retryTier 0 m
  have hrun : Patience.run blocked exec cfg =
      .ok ⟨tr ++ [.publish "retriesFailed" messages.retryFailed],
           .rejected [("message", .vstr messages.retryFailed), ("error", e)]⟩ := by
    rw [Patience.run, hconf]
    unfold Patience.doRetry
    simp only [Qretry, hfuel]
    rw [show qretryGo exec .retryTier 0 m =
        ((qretryGo exec .retryTier 0 m).1, (qretryGo exec .retryTier 0 m).2)
      from rfl, hq1]
    simp [hg, hnb, hra]
  refine ⟨_, e, hrun, he, rfl, ?_, ?_, ?_⟩
  · show totalCalls (tr ++ [.publish "retriesFailed" messages.retryFailed]) = m + 1
    have h1 : callsOf .retryTier tr = m + 1 := by
      rw [callsOf_of_all .retryTier tr hev, hlen]
    have h2 : callsOf .reAttemptTier tr = 0 := by
      refine callsOf_of_none _ _ (fun ev hm => ?_)
      have := hev ev hm
      cases ev <;> simp_all [isExecCallOf]
    have h3 : callsOf .retryTier
        [Ev.publish "retriesFailed" messages.retryFailed] = 0 := rfl
    have h4 : callsOf .reAttemptTier
        [Ev.publish "retriesFailed" messages.retryFailed] = 0 := rfl
    simp only [totalCalls, callsOf_append, h1, h2, h3, h4]
  · show registryAfter blocked
        (tr ++ [.publish "retriesFailed" messages.retryFailed]) = blocked
    refine registryAfter_of_neutral _ _ (fun ev hm => ?_)
    rcases List.mem_append.mp hm with hm | hm
    · exact regNeutral_of_execCall ev .retryTier (hev ev hm)
    · simp at hm
      simp [hm, regNeutral]
  · intro g' hmem
    rcases List.mem_append.mp hmem with hm | hm
    · have := hev _ hm
      simp [isExecCallOf] at this
    · simp at hm

/-- C3 counterexample input: with `retry.max = 2` and an executor that
always fails, `run()` makes 3 executor calls, not the 2 the claim
states (the primitive retries `max` further times beyond the first
try). -/
theorem run_retry_count_cex :
    (Patience.run [] (fun _ => Except.error (.vstr "boom"))
        (Patience.group (Patience.retry Patience.init
          (some [("max", .vnum 2)])) (.vstr "g"))).map
      (fun out => totalCalls out.trace) = Except.ok 3 ∧ (3 : ℕ) ≠ 2 := by
  constructor
  · rfl
  · decide

/-- Witness for `run_retry_exhaustion` at `max = 2`, an always-failing
executor and an unblocked group. -/
theorem run_retry_exhaustion_witness :
    ∃ out e,
      Patience.run [] (fun _ => Except.error (.vstr "boom"))
          (Patience.group (Patience.retry Patience.init
            (some [("max", .vnum 2)])) (.vstr "g")) = .ok out ∧
      (fun _ : Nat => (Except.error (.vstr "boom") : ExecRes)) 2 = .error e ∧
      out.outcome = .rejected
        [("message", .vstr messages.retryFailed), ("error", e)] ∧
      totalCalls out.trace = 2 + 1 ∧
      registryAfter [] out.trace = [] ∧
      (∀ g', Ev.blockAdd g' ∉ out.trace) :=
  run_retry_exhaustion [] _ _ (.vstr "g")
    (options.parse (some [("max", .vnum 2)]) options.defaultsRetry) 2
    rfl (by decide) rfl rfl (by decide) (by decide)

/-- C1: while a group is in the blocked-group registry, a `run()`
configured with that group rejects at once with the blocked message and
the executor is never invoked (the trace is empty). -/
theorem run_blocked_rejects (blocked : List JSVal) (exec : Nat → ExecRes)
    (cfg : MOptions) (g : JSVal)
    (hg : cfg.group = some g)
    (hb : blockedGroups.contains blocked g = true) :
    Patience.run blocked exec cfg =
      .ok ⟨[], .rejected [("message", .vstr messages.requestsBlocked)]⟩ ∧
    totalCalls ([] : List Ev) = 0 := by
  refine ⟨?_, rfl⟩
  rcases hr : cfg.retry with _ | r <;> rcases hra : cfg.reAttempt with _ | ra <;>
    simp [Patience.run, Patience.configureOptions, Patience.retry,
      Patience.group, options.parse, hr, hra, hg, hb]

/-- Witness for `run_blocked_rejects` with group `"g"` already blocked. -/
theorem run_blocked_rejects_witness :
    Patience.run [JSVal.vstr "g"] (fun _ => Except.error .vnull)
        (Patience.group Patience.init (.vstr "g")) =
      .ok ⟨[], .rejected [("message", .vstr messages.requestsBlocked)]⟩ ∧
    totalCalls ([] : List Ev) = 0 :=
  run_blocked_rejects _ _ _ (.vstr "g") rfl (by decide)

/-- C9: if neither a request descriptor nor a group was ever configured,
`run()` throws synchronously (a `TypeError` from reading `.url` of the
absent request inside `_configure`) instead of returning a rejected
future. -/
theorem run_throws_without_request (blocked : List JSVal)
    (exec : Nat → ExecRes) (cfg : MOptions)
    (hreq : cfg.request = none) (hg : cfg.group = none) :
    Patience.run blocked exec cfg = .error .typeError := by
  rcases hr : cfg.retry with _ | r <;>
    simp [Patience.run, Patience.configureOptions, Patience.retry,
      options.parse, hr, hreq, hg]

/-- Witness for `run_throws_without_request` on a fresh configuration. -/
theorem run_throws_without_request_witness :
    Patience.run [] (fun _ => Except.ok .vnull) Patience.init =
      .error .typeError :=
  run_throws_without_request [] (fun _ => Except.ok .vnull) Patience.init rfl rfl

/-- C5: the policy resolver returns the defaults verbatim when the given
options are absent or key-less; otherwise, for every key of the
defaults, it takes the given value exactly when that value is truthy —
so a falsy-but-meaningful value such as `interval: 0` is replaced by the
default. -/
theorem options_parse_resolver (given d : JSObj) (key : String)
    (hne : given ≠ []) (hkey : key ∈ objKeys d) :
    options.parse none d = d ∧
    options.parse (some []) d = d ∧
    lookupObj (options.parse (some given) d) key =
      (if (lookupObj given key).truthy then lookupObj given key
       else lookupObj d key) := by
  refine ⟨rfl, rfl, ?_⟩
  have hlen : ¬(objKeys given).length = 0 := by
    cases given with
    | nil => exact absurd rfl hne
    | cons a l => simp [objKeys]
  rw [options.parse]
  rw [if_neg hlen]
  exact lookupObj_override given d key hkey

/-- Witness for `options_parse_resolver`: `interval: 0` is falsy, so the
resolved retry policy keeps the default interval `100`. -/
theorem options_parse_resolver_witness :
    options.parse none options.defaultsRetry = options.defaultsRetry ∧
    options.parse (some []) options.defaultsRetry = options.defaultsRetry ∧
    lookupObj (options.parse (some [("interval", .vnum 0)])
        options.defaultsRetry) "interval" =
      (if (lookupObj [("interval", .vnum 0)] "interval").truthy
       then lookupObj [("interval", .vnum 0)] "interval"
       else lookupObj options.defaultsRetry "interval") :=
  options_parse_resolver [("interval", .vnum 0)] options.defaultsRetry
    "interval" (by decide) (by decide)

/-- C7 counterexample: adding a bundle under a fresh name evaluates to
`undefined` (the source's `add` has no `return` on the storing path),
not `true` as the claim states. -/
theorem strategies_add_true_cex :
    (strategies.add [] "custom" [("retry", BVal.obj [])]).2 = JSVal.vundefined ∧
    JSVal.vundefined ≠ JSVal.vbool true := by
  constructor
  · rfl
  · decide

/-- C7 (amended): `strategies.add` under a fresh name stores the bundle
(retrievable afterwards) and returns `undefined` (falsy), not `true`;
under an already-registered name it returns `false` and performs no
mutation, so the originally registered bundle stays retrievable. -/
theorem strategies_add_spec (l : StratList) (name : String) (b b₀ : Bundle) :
    (strategies.get l name = none →
      strategies.add l name b = (setStrat l name b, JSVal.vundefined) ∧
      strategies.get (strategies.add l name b).1 name = some b) ∧
    (strategies.get l name = some b₀ →
      strategies.add l name b = (l, .vbool false) ∧
      strategies.get (strategies.add l name b).1 name = some b₀) := by
  constructor
  · intro h
    refine ⟨by simp [strategies.add, h], ?_⟩
    simp [strategies.add, h, get_setStrat_self]
  · intro h
    exact ⟨by simp [strategies.add, h], by simp [strategies.add, h]⟩

/-- Witness for `strategies_add_spec`: a fresh add on the empty registry
and a colliding add on a one-entry registry. -/
theorem strategies_add_spec_witness :
    (strategies.add [] "custom" [("retry", BVal.obj [])] =
        (setStrat [] "custom" [("retry", BVal.obj [])], JSVal.vundefined) ∧
      strategies.get (strategies.add [] "custom"
          [("retry", BVal.obj [])]).1 "custom" =
        some [("retry", BVal.obj [])]) ∧
    (strategies.add [("custom", [("retry", BVal.obj [])])] "custom"
          [("group", BVal.prim (.vstr "x"))] =
        ([("custom", [("retry", BVal.obj [])])], .vbool false) ∧
      strategies.get (strategies.add [("custom", [("retry", BVal.obj [])])]
          "custom" [("group", BVal.prim (.vstr "x"))]).1 "custom" =
        some [("retry", BVal.obj [])]) :=
  ⟨(strategies_add_spec [] "custom" [("retry", BVal.obj [])] []).1 rfl,
   (strategies_add_spec [("custom", [("retry", BVal.obj [])])] "custom"
      [("group", BVal.prim (.vstr "x"))] [("retry", BVal.obj [])]).2 rfl⟩

/-- C10: a bundle key whose value is falsy is skipped entirely by
`_strategyHelper` — no setter runs, the configuration keeps whatever
value it previously had, and applying the bundle behaves as if the key
were absent. -/
theorem strategyHelper_skips_falsy (cfg : MOptions) (key : String)
    (v : BVal) (rest : Bundle) (hv : v.truthy = false) :
    Patience.strategyHelper cfg key v = some cfg ∧
    Patience.applyBundle cfg ((key, v) :: rest) =
      Patience.applyBundle cfg rest := by
  have h1 : Patience.strategyHelper cfg key v = some cfg := by
    simp [Patience.strategyHelper, hv]
  exact ⟨h1, by simp [Patience.applyBundle, h1]⟩

/-- Witness for `strategyHelper_skips_falsy`: a `retry: null` bundle
entry leaves an already-set retry policy untouched. -/
theorem strategyHelper_skips_falsy_witness :
    Patience.strategyHelper
        (Patience.retry Patience.init none) "retry" (.prim .vnull) =
      some (Patience.retry Patience.init none) ∧
    Patience.applyBundle (Patience.retry Patience.init none)
        [("retry", .prim .vnull)] =
      Patience.applyBundle (Patience.retry Patience.init none) [] :=
  strategyHelper_skips_falsy (Patience.retry Patience.init none)
    "retry" (.prim .vnull) [] rfl

/-- C8: `runStrategy` with an unregistered name logs an error and
returns `false` synchronously (never a rejected future); with a
registered name it replays the bundle through the configuration setters
and returns the future of `run()` on the resulting configuration. -/
theorem runStrategy_spec (blocked : List JSVal) (exec : Nat → ExecRes)
    (reg : StratList) (cfg cfg' : MOptions) (name : String) (strat : Bundle) :
    (strategies.get reg name = none →
      Patience.runStrategy blocked exec reg cfg name =
        some (.falseSync ("Retry strategy " ++ name ++ " not found."))) ∧
    (strategies.get reg name = some strat →
      Patience.applyBundle cfg strat = some cfg' →
      Patience.runStrategy blocked exec reg cfg name =
        some (.ran (Patience.run blocked exec cfg'))) := by
  constructor
  · intro h
    simp [Patience.runStrategy, h]
  · intro h1 h2
    simp [Patience.runStrategy, h1, h2]

/-- C2 (amended): when every tier-1 try fails and a re-attempt policy
with `max = k` (k ≥ 1) is configured, the group is added to the registry
at the retry→re-attempt transition and stays in it for every re-attempt
executor call; the re-attempt phase makes at most `k` further executor
calls — exactly `k` (not `k − 1`) when the executor keeps failing — and
the registry ends exactly where it started (the group is removed)
whether the phase ends in success or exhaustion. -/
theorem run_reattempt_blocking (blocked : List JSVal) (exec : Nat → ExecRes)
    (cfg : MOptions) (g : JSVal) (r ra : JSObj) (m k : ℕ)
    (hr : cfg.retry = some r)
    (hmax : lookupObj r "max" = .vnum m)
    (hra : cfg.reAttempt = some ra)
    (hk : lookupObj ra "max" = .vnum k)
    (hk1 : 1 ≤ k)
    (hg : cfg.group = some g)
    (hnb : blockedGroups.contains blocked g = false)
    (hfail1 : ∀ i, i < m + 1 → isErr (exec i) = true) :
    ∃ out, Patience.run blocked exec cfg = .ok out ∧
      Ev.blockAdd g ∈ out.trace ∧
      safeTrace blocked g out.trace ∧
      callsOf .reAttemptTier out.trace ≤ k ∧
      ((∀ i, isErr (exec i) = true) →
        callsOf .reAttemptTier out.trace = k) ∧
      registryAfter blocked out.trace = blocked ∧
      g ∉ registryAfter blocked out.trace := by
  obtain ⟨e₁, rest, outc, hrun, he₁, hcase⟩ :=
    run_escalation_shape blocked exec cfg g r ra m k
      hr hmax hra hk hk1 hg hnb hfail1
  have hnotin : g ∉ blocked := (blockedGroups.contains_eq_false_iff _ _).mp hnb
  have hev1 := qretryGo_events exec .retryTier 0 m
  have hev2 := qretryGo_events exec .reAttemptTier (m + 1) (k - 1)
  have hrest : ∀ e ∈ rest,
      regNeutral e = true ∧ isExecCallOf .reAttemptTier e = false := by
    rcases hcase with ⟨v, _, hrst, _⟩ | ⟨e₂, _, hrst, _⟩ <;> subst hrst
    · intro e he
      simp at he
    · intro e he
      simp only [List.mem_cons, List.not_mem_nil, or_false] at he
      subst he
      exact ⟨rfl, rfl⟩
  refine ⟨_, hrun, ?_, ?_, ?_, ?_, ?_, ?_⟩
  · simp
  · refine safeTrace_escalation blocked g _ _ rest _
      (fun e he => isExecCallOf_retry_not_reattempt e (hev1 e he))
      (fun e he => regNeutral_of_execCall e _ (hev2 e he))
      (fun e he => (hrest e he).2)
  · rw [callsOf_append, callsOf_append,
        callsOf_of_none _ _ (fun e he =>
          isExecCallOf_retry_not_reattempt e (hev1 e he)),
        callsOf_append, callsOf_of_all _ _ hev2]
    have hmid : callsOf .reAttemptTier
        [Ev.publish "retriesFailed" messages.retryFailed,
         Ev.notify [("message", .vstr messages.retryFailed), ("error", e₁)],
         Ev.blockAdd g] = 0 := rfl
    have hsuf : callsOf .reAttemptTier (Ev.blockRemove g :: rest) = 0 := by
      refine callsOf_of_none _ _ (fun e he => ?_)
      rcases List.mem_cons.mp he with rfl | he
      · rfl
      · exact (hrest e he).2
    rw [hmid, hsuf]
    have := qretryGo_len_le exec .reAttemptTier (m + 1) (k - 1)
    omega
  · intro hall
    rw [callsOf_append, callsOf_append,
        callsOf_of_none _ _ (fun e he =>
          isExecCallOf_retry_not_reattempt e (hev1 e he)),
        callsOf_append, callsOf_of_all _ _ hev2]
    have hmid : callsOf .reAttemptTier
        [Ev.publish "retriesFailed" messages.retryFailed,
         Ev.notify [("message", .vstr messages.retryFailed), ("error", e₁)],
         Ev.blockAdd g] = 0 := rfl
    have hsuf : callsOf .reAttemptTier (Ev.blockRemove g :: rest) = 0 := by
      refine callsOf_of_none _ _ (fun e he => ?_)
      rcases List.mem_cons.mp he with rfl | he
      · rfl
      · exact (hrest e he).2
    rw [hmid, hsuf]
    have hlen2 := (qretryGo_fail exec .reAttemptTier (m + 1) (k - 1)
      (fun i _ => hall (m + 1 + i))).2
    omega
  · exact registryAfter_escalation blocked g _ _ rest _ hnotin
      (fun e he => regNeutral_of_execCall e _ (hev1 e he))
      (fun e he => regNeutral_of_execCall e _ (hev2 e he))
      (fun e he => (hrest e he).1)
  · rw [registryAfter_escalation blocked g _ _ rest _ hnotin
      (fun e he => regNeutral_of_execCall e _ (hev1 e he))
      (fun e he => regNeutral_of_execCall e _ (hev2 e he))
      (fun e he => (hrest e he).1)]
    exact hnotin

/-- C2 counterexample input: with `retry.max = 1`, `reAttempt.max = 2`
and an always-failing executor, the re-attempt phase makes 2 executor
calls, not the `k − 1 = 1` the claim states. -/
theorem run_reattempt_count_cex :
    (Patience.run [] (fun _ => Except.error (.vstr "boom"))
        (Patience.reAttempt
          (Patience.group (Patience.retry Patience.init
            (some [("max", .vnum 1)])) (.vstr "g"))
          (some [("max", .vnum 2)]))).map
      (fun out => callsOf .reAttemptTier out.trace) = Except.ok 2 ∧
    (2 : ℕ) ≠ 2 - 1 := by
  refine ⟨?_, by decide⟩
  obtain ⟨e₁, rest, outc, hrun, he₁, hcase⟩ :=
    run_escalation_shape [] (fun _ => Except.error (.vstr "boom"))
      (Patience.reAttempt
        (Patience.group (Patience.retry Patience.init
          (some [("max", .vnum 1)])) (.vstr "g"))
        (some [("max", .vnum 2)]))
      (.vstr "g")
      (options.parse (some [("max", .vnum 1)]) options.defaultsRetry)
      (options.parse (some [("max", .vnum 2)]) options.defaultsReAttempt)
      1 2 rfl (by decide) rfl (by decide) (by decide) rfl (by decide)
      (by decide)
  have hq2 : (qretryGo (fun _ => Except.error (.vstr "boom"))
      .reAttemptTier (1 + 1) (2 - 1)).1 = Except.error (.vstr "boom") := rfl
  rcases hcase with ⟨v, hq, -, -⟩ | ⟨e₂, hq, hrest, houtc⟩
  · rw [hq2] at hq
    cases hq
  · subst hrest
    subst houtc
    rw [hrun]
    rfl

/-- Witness for `run_reattempt_blocking` at `retry.max = 1`,
`reAttempt.max = 2`, always-failing executor, unblocked group. -/
theorem run_reattempt_blocking_witness :
    ∃ out, Patience.run [] (fun _ => Except.error (.vstr "boom"))
        (Patience.reAttempt
          (Patience.group (Patience.retry Patience.init
            (some [("max", .vnum 1)])) (.vstr "g"))
          (some [("max", .vnum 2)])) = .ok out ∧
      Ev.blockAdd (.vstr "g") ∈ out.trace ∧
      safeTrace [] (.vstr "g") out.trace ∧
      callsOf .reAttemptTier out.trace ≤ 2 ∧
      ((∀ i, isErr ((fun _ : Nat =>
          (Except.error (.vstr "boom") : ExecRes)) i) = true) →
        callsOf .reAttemptTier out.trace = 2) ∧
      registryAfter [] out.trace = [] ∧
      (JSVal.vstr "g") ∉ registryAfter [] out.trace :=
  run_reattempt_blocking [] _ _ (.vstr "g")
    (options.parse (some [("max", .vnum 1)]) options.defaultsRetry)
    (options.parse (some [("max", .vnum 2)]) options.defaultsReAttempt)
    1 2 rfl (by decide) rfl (by decide) (by decide) rfl (by decide)
    (by decide)

/-- C6 (amended): a `run()` exhausting the re-attempt phase removes the
group from the registry, broadcasts the `reAttemptsFailed` lifecycle
event and rejects with `{message: "Re-attempts of request failed.",
err: <underlying cause>}` — the cause sits under the key `err`, and no
`error` key is present in this rejection. -/
theorem run_reattempt_exhaustion_rejects (blocked : List JSVal)
    (exec : Nat → ExecRes) (cfg : MOptions) (g : JSVal) (r ra : JSObj)
    (m k : ℕ)
    (hr : cfg.retry = some r)
    (hmax : lookupObj r "max" = .vnum m)
    (hra : cfg.reAttempt = some ra)
    (hk : lookupObj ra "max" = .vnum k)
    (hk1 : 1 ≤ k)
    (hg : cfg.group = some g)
    (hnb : blockedGroups.contains blocked g = false)
    (hfailAll : ∀ i, isErr (exec i) = true) :
    ∃ out e₂, Patience.run blocked exec cfg = .ok out ∧
      exec (m + 1 + (k - 1)) = .error e₂ ∧
      out.outcome = .rejected
        [("message", .vstr messages.reAttemptsFailed), ("err", e₂)] ∧
      lookupObj [("message", .vstr messages.reAttemptsFailed),
        ("err", e₂)] "err" = e₂ ∧
      lookupObj [("message", .vstr messages.reAttemptsFailed),
        ("err", e₂)] "error" = .vundefined ∧
      Ev.publish "reAttemptsFailed" messages.reAttemptsFailed ∈ out.trace ∧
      registryAfter blocked out.trace = blocked ∧
      g ∉ registryAfter blocked out.trace := by
  obtain ⟨e₁, rest, outc, hrun, he₁, hcase⟩ :=
    run_escalation_shape blocked exec cfg g r ra m k
      hr hmax hra hk hk1 hg hnb (fun i _ => hfailAll i)
  have hnotin : g ∉ blocked := (blockedGroups.contains_eq_false_iff _ _).mp hnb
  have hev1 := qretryGo_events exec .retryTier 0 m
  have hev2 := qretryGo_events exec .reAttemptTier (m + 1) (k - 1)
  have hq2f := qretryGo_fail exec .reAttemptTier (m + 1) (k - 1)
    (fun i _ => hfailAll (m + 1 + i))
  obtain ⟨e₂', he₂'⟩ : ∃ e, exec (m + 1 + (k - 1)) = .error e := by
    cases hx : exec (m + 1 + (k - 1)) with
    | ok v =>
        have := hfailAll (m + 1 + (k - 1))
        simp [isErr, hx] at this
    | error e => exact ⟨e, rfl⟩
  rcases hcase with ⟨v, hq, -, -⟩ | ⟨e₂, hq, hrest, houtc⟩
  · rw [hq2f.1, he₂'] at hq
    cases hq
  · rw [hq2f.1, he₂'] at hq
    injection hq with h
    subst h
    subst hrest
    subst houtc
    refine ⟨_, e₂', hrun, he₂', rfl, rfl, rfl, ?_, ?_, ?_⟩
    · simp
    · exact registryAfter_escalation blocked g _ _ _ _ hnotin
        (fun e he => regNeutral_of_execCall e _ (hev1 e he))
        (fun e he => regNeutral_of_execCall e _ (hev2 e he))
        (fun e he => by
          simp only [List.mem_cons, List.not_mem_nil, or_false] at he
          subst he
          rfl)
    · rw [registryAfter_escalation blocked g _ _ _ _ hnotin
        (fun e he => regNeutral_of_execCall e _ (hev1 e he))
        (fun e he => regNeutral_of_execCall e _ (hev2 e he))
        (fun e he => by
          simp only [List.mem_cons, List.not_mem_nil, or_false] at he
          subst he
          rfl)]
      exact hnotin

/-- C6 counterexample input: on full exhaustion the rejection object
carries the underlying cause under the key `err`, while the key `error`
the claim names is absent (`undefined`). -/
theorem run_reattempt_error_key_cex :
    (Patience.run [] (fun _ => Except.error (.vstr "boom"))
        (Patience.reAttempt
          (Patience.group (Patience.retry Patience.init
            (some [("max", .vnum 1)])) (.vstr "h"))
          (some [("max", .vnum 2)]))).map
      (fun out => match out.outcome with
        | .rejected p => (lookupObj p "error", lookupObj p "err")
        | _ => (.vnull, .vnull)) =
      Except.ok (JSVal.vundefined, .vstr "boom") ∧
    JSVal.vundefined ≠ JSVal.vstr "boom" := by
  refine ⟨?_, by decide⟩
  obtain ⟨e₁, rest, outc, hrun, he₁, hcase⟩ :=
    run_escalation_shape [] (fun _ => Except.error (.vstr "boom"))
      (Patience.reAttempt
        (Patience.group (Patience.retry Patience.init
          (some [("max", .vnum 1)])) (.vstr "h"))
        (some [("max", .vnum 2)]))
      (.vstr "h")
      (options.parse (some [("max", .vnum 1)]) options.defaultsRetry)
      (options.parse (some [("max", .vnum 2)]) options.defaultsReAttempt)
      1 2 rfl (by decide) rfl (by decide) (by decide) rfl (by decide)
      (by decide)
  have hq2 : (qretryGo (fun _ => Except.error (.vstr "boom"))
      .reAttemptTier (1 + 1) (2 - 1)).1 = Except.error (.vstr "boom") := rfl
  rcases hcase with ⟨v, hq, -, -⟩ | ⟨e₂, hq, hrest, houtc⟩
  · rw [hq2] at hq
    cases hq
  · rw [hq2] at hq
    injection hq with h
    subst h
    subst hrest
    subst houtc
    rw [hrun]
    rfl

/-- Witness for `run_reattempt_exhaustion_rejects` at `retry.max = 1`,
`reAttempt.max = 2` and an everywhere-failing executor. -/
theorem run_reattempt_exhaustion_rejects_witness :
    ∃ out e₂, Patience.run [] (fun _ => Except.error (.vstr "boom"))
        (Patience.reAttempt
          (Patience.group (Patience.retry Patience.init
            (some [("max", .vnum 1)])) (.vstr "g"))
          (some [("max", .vnum 2)])) = .ok out ∧
      (fun _ : Nat => (Except.error (.vstr "boom") : ExecRes))
        (1 + 1 + (2 - 1)) = .error e₂ ∧
      out.outcome = .rejected
        [("message", .vstr messages.reAttemptsFailed), ("err", e₂)] ∧
      lookupObj [("message", .vstr messages.reAttemptsFailed),
        ("err", e₂)] "err" = e₂ ∧
      lookupObj [("message", .vstr messages.reAttemptsFailed),
        ("err", e₂)] "error" = .vundefined ∧
      Ev.publish "reAttemptsFailed" messages.reAttemptsFailed ∈ out.trace ∧
      registryAfter [] out.trace = [] ∧
      (JSVal.vstr "g") ∉ registryAfter [] out.trace :=
  run_reattempt_exhaustion_rejects [] _ _ (.vstr "g")
    (options.parse (some [("max", .vnum 1)]) options.defaultsRetry)
    (options.parse (some [("max", .vnum 2)]) options.defaultsReAttempt)
    1 2 rfl (by decide) rfl (by decide) (by decide) rfl (by decide)
    (fun _ => rfl)

/-- C4: when the executor succeeds on try `j + 1` with `j + 1` within
`retry.max`, `run()` resolves with that executor result after `j + 1`
tier-1 calls, the re-attempt phase is never entered (zero re-attempt
calls, no `blockAdd` event) and the registry is untouched. -/
theorem run_resolves_on_success (blocked : List JSVal) (exec : Nat → ExecRes)
    (cfg : MOptions) (g : JSVal) (r : JSObj) (m j : ℕ) (v : JSVal)
    (hr : cfg.retry = some r)
    (hmax : lookupObj r "max" = .vnum m)
    (hg : cfg.group = some g)
    (hnb : blockedGroups.contains blocked g = false)
    (hj : j < m)
    (hfail : ∀ i, i < j → isErr (exec i) = true)
    (hok : exec j = .ok v) :
    ∃ out, Patience.run blocked exec cfg = .ok out ∧
      out.outcome = .resolved v ∧
      callsOf .reAttemptTier out.trace = 0 ∧
      totalCalls out.trace = j + 1 ∧
      registryAfter blocked out.trace = blocked ∧
      (∀ g', Ev.blockAdd g' ∉ out.trace) := by
  have hq := qretryGo_success exec .retryTier v 0 m j (Nat.le_of_lt hj)
    (fun i hi => by simpa using hfail i hi) (by simpa using hok)
  set tr := (qretryGo exec .retryTier 0 m).2 with htr
  have hev := qretryGo_events exec .retryTier 0 m
  have hcalls1 : callsOf .retryTier tr = j + 1 := by
    rw [callsOf_of_all _ _ hev, hq.2]
  have hcalls2 : callsOf .reAttemptTier tr = 0 :=
    callsOf_of_none _ _ (fun e he =>
      isExecCallOf_retry_not_reattempt e (hev e he))
  have hreg : registryAfter blocked tr = blocked :=
    registryAfter_of_neutral _ _ (fun e he =>
      regNeutral_of_execCall e _ (hev e he))
  have hnadd : ∀ g', Ev.blockAdd g' ∉ tr := by
    intro g' hm
    have := hev _ hm
    simp [isExecCallOf] at this
  have hrun : Patience.run blocked exec cfg = .ok ⟨tr, .resolved v⟩ := by
    rcases hrA : cfg.reAttempt with _ | ra
    · have hconf : Patience.configureOptions cfg =
          .ok { cfg with retry := some (objSet r "maxRetry" (.vnum (m : ℚ))) } := by
        simp [Patience.configureOptions, hr, hg, hrA, hmax]
      rw [Patience.run, hconf]
      unfold Patience.doRetry
      simp only [Qretry]
      have hfuel : retriesOf (lookupObj
          (({ cfg with retry := some (objSet r "maxRetry" (.vnum (m : ℚ))) }
            : MOptions).retry.getD []) "maxRetry") = m := by
        simp [lookupObj_objSet_self, retriesOf_natCast]
      rw [hfuel]
      rw [show qretryGo exec .retryTier 0 m =
          ((qretryGo exec .retryTier 0 m).1, (qretryGo exec .retryTier 0 m).2)
        from rfl, hq.1]
      simp [hg, hnb]
    · have hconf : Patience.configureOptions cfg = .ok
          { cfg with retry := some (objSet r "maxRetry" (.vnum (m : ℚ))),
                     reAttempt := some (objSet ra "maxRetry"
                       (jsSub1 (lookupObj ra "max"))) } := by
        simp [Patience.configureOptions, hr, hg, hrA, hmax]
      rw [Patience.run, hconf]
      unfold Patience.doRetry
      simp only [Qretry]
      have hfuel : retriesOf (lookupObj
          (({ cfg with retry := some (objSet r "maxRetry" (.vnum (m : ℚ))),
                       reAttempt := some (objSet ra "maxRetry"
                         (jsSub1 (lookupObj ra "max"))) }
            : MOptions).retry.getD []) "maxRetry") = m := by
        simp [lookupObj_objSet_self, retriesOf_natCast]
      rw [hfuel]
      rw [show qretryGo exec .retryTier 0 m =
          ((qretryGo exec .retryTier 0 m).1, (qretryGo exec .retryTier 0 m).2)
        from rfl, hq.1]
      simp [hg, hnb]
  refine ⟨_, hrun, rfl, hcalls2, ?_, hreg, hnadd⟩
  simp [totalCalls, hcalls1, hcalls2]

/-- Witness for `run_resolves_on_success`: `retry.max = 3`, failures on
tries 1–2, success on try 3. -/
theorem run_resolves_on_success_witness :
    ∃ out, Patience.run []
        (fun i => if i < 2 then Except.error (.vstr "boom")
                  else Except.ok (.vstr "yay"))
        (Patience.group (Patience.retry Patience.init
          (some [("max", .vnum 3)])) (.vstr "g")) = .ok out ∧
      out.outcome = .resolved (.vstr "yay") ∧
      callsOf .reAttemptTier out.trace = 0 ∧
      totalCalls out.trace = 2 + 1 ∧
      registryAfter [] out.trace = [] ∧
      (∀ g', Ev.blockAdd g' ∉ out.trace) :=
  run_resolves_on_success [] _ _ (.vstr "g")
    (options.parse (some [("max", .vnum 3)]) options.defaultsRetry)
    3 2 (.vstr "yay") rfl (by decide) rfl (by decide) (by decide)
    (by decide) rfl

/-- Witness for `runStrategy_spec`: an unknown name over the built-in
registry, and the built-in `resilient` strategy applied to a fresh
configuration. -/
theorem runStrategy_spec_witness :
    Patience.runStrategy [] (fun _ => Except.ok .vnull)
        strategies.builtinList Patience.init "nope" =
      some (.falseSync ("Retry strategy " ++ "nope" ++ " not found.")) ∧
    Patience.runStrategy [] (fun _ => Except.ok .vnull)
        strategies.builtinList Patience.init "resilient" =
      some (.ran (Patience.run [] (fun _ => Except.ok .vnull)
        ⟨some [("max", .vnum 5), ("interval", .vnum 100),
               ("intervalMultiplicator", .vnum 1)],
         some [("max", .vnum 10), ("interval", .vnum 1000),
               ("intervalMultiplicator", .vnum 1)],
         none, none⟩)) :=
  ⟨(runStrategy_spec [] (fun _ => Except.ok .vnull) strategies.builtinList
      Patience.init Patience.init "nope" []).1 rfl,
   (runStrategy_spec [] (fun _ => Except.ok .vnull) strategies.builtinList
      Patience.init
      ⟨some [("max", .vnum 5), ("interval", .vnum 100),
             ("intervalMultiplicator", .vnum 1)],
       some [("max", .vnum 10), ("interval", .vnum 1000),
             ("intervalMultiplicator", .vnum 1)],
       none, none⟩
      "resilient"
      [("retry", .obj [("max", .vnum 5), ("interval", .vnum 100),
                       ("intervalMultiplicator", .vnum 1)]),
       ("reAttempt", .obj [("max", .vnum 10), ("interval", .vnum 1000),
                           ("intervalMultiplicator", .vnum 1)])]).2
     rfl (by decide)⟩

end PatienceJS
